import Mathlib

/-!
Shallow embedding of `src/todo_list_python/main.py` (a FastAPI todo-list
service persisted to a JSON file) and verification of its specification.

Python strings are modelled as `List Char` (`PyStr`); `str.strip()` is
modelled by removing leading and trailing whitespace characters.
Machine-level concerns (I/O, HTTP) are modelled by explicit state passing:
every handler takes the loaded collection and returns the collection that
ends up persisted together with its `Except` response.
-/

/-- Python strings as character sequences. -/
abbrev PyStr := List Char

/-- Whitespace predicate used by `str.strip()`. -/
def pyIsSpace (c : Char) : Bool := c.isWhitespace

/-- Remove trailing whitespace (Python `str.rstrip()`): a character is kept
iff it is non-whitespace or some later character is kept. -/
def rstrip : PyStr → PyStr
  | [] => []
  | a :: t =>
    let r := rstrip t
    if r = [] ∧ pyIsSpace a then [] else a :: r

/-- Python `str.strip()`: drop leading whitespace, then trailing whitespace. -/
def pstrip (s : PyStr) : PyStr := rstrip (s.dropWhile pyIsSpace)

theorem rstrip_length_le (s : PyStr) : (rstrip s).length ≤ s.length := by
  induction s with
  | nil => simp [rstrip]
  | cons a t ih =>
    simp only [rstrip]
    split
    · simp
    · simpa using ih

theorem pstrip_length_le (s : PyStr) : (pstrip s).length ≤ s.length :=
  le_trans (rstrip_length_le _) (by simpa using (List.dropWhile_sublist (l := s) (p := pyIsSpace)).length_le)

/-- The head of `rstrip s`, when present, is the head of `s`. -/
theorem rstrip_head (s : PyStr) : rstrip s = [] ∨ ∃ a t r, s = a :: t ∧ rstrip s = a :: r := by
  cases s with
  | nil => exact Or.inl rfl
  | cons a t =>
    simp only [rstrip]
    split
    · exact Or.inl rfl
    · exact Or.inr ⟨a, t, rstrip t, rfl, rfl⟩

theorem rstrip_idem (s : PyStr) : rstrip (rstrip s) = rstrip s := by
  induction s with
  | nil => simp [rstrip]
  | cons a t ih =>
    by_cases h : rstrip t = [] ∧ pyIsSpace a
    · simp [rstrip, h]
    · have h1 : rstrip (a :: t) = a :: rstrip t := by simp only [rstrip]; rw [if_neg h]
      rw [h1]
      have h2 : ¬(rstrip (rstrip t) = [] ∧ pyIsSpace a) := by
        rw [ih]; exact h
      simp only [rstrip]
      rw [if_neg h2, ih]

/-- The head of `dropWhile pyIsSpace s`, when present, is non-whitespace. -/
theorem dropWhile_space_head (s : PyStr) :
    s.dropWhile pyIsSpace = [] ∨
      ∃ a t, s.dropWhile pyIsSpace = a :: t ∧ pyIsSpace a = false := by
  induction s with
  | nil => exact Or.inl rfl
  | cons a t ih =>
    by_cases h : pyIsSpace a
    · simpa [List.dropWhile_cons, h] using ih
    · exact Or.inr ⟨a, t, by simp [List.dropWhile_cons, h], by simpa using h⟩

theorem dropWhile_of_head_false {a : Char} {t : PyStr} (h : pyIsSpace a = false) :
    (a :: t).dropWhile pyIsSpace = a :: t := by
  simp [List.dropWhile_cons, h]

theorem pstrip_idem (s : PyStr) : pstrip (pstrip s) = pstrip s := by
  unfold pstrip
  rcases dropWhile_space_head s with h | ⟨a, t, ht, ha⟩
  · simp [h, rstrip]
  · rw [ht]
    rcases rstrip_head (a :: t) with h0 | ⟨a', t', r, he, hr⟩
    · rw [h0]
      simp [rstrip]
    · have ha2 : a' = a := by
        injection he with h1 h2
        exact h1.symm
      subst ha2
      rw [hr, dropWhile_of_head_false ha, ← hr, rstrip_idem]

theorem pstrip_len_pos_of_ne_nil {s : PyStr} (h : pstrip s ≠ []) : 1 ≤ (pstrip s).length := by
  cases hs : pstrip s with
  | nil => exact absurd hs h
  | cons a t => simp

/-- Error taxonomy of the service (HTTP 401 / 422 / 400 / 404). -/
inductive ApiError where
  | unauthorized
  | validationError
  | invalidArgument
  | notFound
deriving DecidableEq, Repr

/-- A validated todo record (`class TodoItem(BaseModel)`). -/
structure TodoItem where
  id : Int
  title : PyStr
  description : PyStr
  done : Bool
deriving DecidableEq, Repr

/-- Pydantic validation of a string field: `Field(min_length=1, max_length=maxLen)`
runs on the raw value, then `validate_not_empty_string` rejects values that are
empty after stripping and returns the stripped value. -/
def validateStr (maxLen : Nat) (v : PyStr) : Option PyStr :=
  if v.length < 1 then none
  else if maxLen < v.length then none
  else if pstrip v = [] then none
  else some (pstrip v)

/-- Pydantic construction `TodoItem(id=…, title=…, description=…, done=…)`:
`id` must satisfy `gt=0`, `title` 1–100 and `description` 1–500 raw characters
with non-whitespace content; stored values are the stripped strings. -/
def TodoItem.validate (id : Int) (title description : PyStr) (done : Bool) : Option TodoItem :=
  if id ≤ 0 then none
  else
    match validateStr 100 title, validateStr 500 description with
    | some t, some d => some ⟨id, t, d, done⟩
    | _, _ => none

/-- A validated request body (`class TodoCreate(BaseModel)`); `done` is
optional in the body and defaults to `False`. -/
structure TodoCreate where
  title : PyStr
  description : PyStr
  done : Bool
deriving DecidableEq, Repr

/-- Pydantic construction of a `TodoCreate` from the raw request fields. -/
def TodoCreate.validate (title description : PyStr) (done : Bool) : Option TodoCreate :=
  match validateStr 100 title, validateStr 500 description with
  | some t, some d => some ⟨t, d, done⟩
  | _, _ => none

/-- A record as parsed from the JSON store, before pydantic validation. -/
structure RawTodo where
  id : Int
  title : PyStr
  description : PyStr
  done : Bool
deriving DecidableEq, Repr

/-- The observable states of the backing store `data.json`. -/
inductive StoreState where
  | absent
  | corrupt
  | parsed (records : List RawTodo)
deriving DecidableEq

/-- The list comprehension `[cls(**item) for item in data]`: validates the
records left to right, raising at the first invalid one. -/
def loadRecords : List RawTodo → Except ApiError (List TodoItem)
  | [] => .ok []
  | r :: rs =>
    match TodoItem.validate r.id r.title r.description r.done with
    | some t => (loadRecords rs).map fun ts => t :: ts
    | none => .error .validationError

/-- `TodoItem.load_all`: `FileNotFoundError` and `json.JSONDecodeError` are
caught and yield `[]`; each parsed record is validated by `cls(**item)`, and a
pydantic `ValidationError` raised there is not caught, so it propagates. -/
def load_all : StoreState → Except ApiError (List TodoItem)
  | .absent => .ok []
  | .corrupt => .ok []
  | .parsed records => loadRecords records

/-- The fixed credential table `USERS`. -/
def USERS : List (PyStr × PyStr) :=
  [("admin".data, "admin123".data), ("user".data, "user123".data)]

/-- `verify_credentials`: rejects with HTTP 401 unless the username is a key
of `USERS` and the password equals the stored one (`secrets.compare_digest`
is equality on equal-typed strings; timing is not modelled). -/
def verify_credentials (username password : PyStr) : Except ApiError PyStr :=
  match (USERS.find? fun u => u.1 == username) with
  | none => .error .unauthorized
  | some u => if password = u.2 then .ok username else .error .unauthorized

/-- `TodoItem.get_next_id`: `max((todo.id for todo in todos), default=0) + 1`.
The default is used only when the collection is empty; otherwise the maximum
ranges over the ids alone. -/
def get_next_id (todos : List TodoItem) : Int :=
  (match todos with
   | [] => 0
   | t :: ts => ts.foldl (fun m x => max m x.id) t.id) + 1

/-- `create_todo` handler: validates `TodoItem(id=next_id, …)`, appends,
persists. Returns the resulting stored collection and the response; a
pydantic failure inside the handler leaves the store untouched. -/
def create_todo (todos : List TodoItem) (todo : TodoCreate) :
    List TodoItem × Except ApiError TodoItem :=
  match TodoItem.validate (get_next_id todos) todo.title todo.description todo.done with
  | some new_todo => (todos ++ [new_todo], .ok new_todo)
  | none => (todos, .error .validationError)

/-- `update_todo` handler: scan for the first record with the given id,
rebuild it from the request body, persist; 404 when no record matches. -/
def update_todo (todos : List TodoItem) (todo_id : Int) (updated_todo : TodoCreate) :
    List TodoItem × Except ApiError TodoItem :=
  match todos with
  | [] => ([], .error .notFound)
  | t :: rest =>
    if t.id = todo_id then
      match TodoItem.validate todo_id updated_todo.title updated_todo.description updated_todo.done with
      | some updated => (updated :: rest, .ok updated)
      | none => (t :: rest, .error .validationError)
    else
      let r := update_todo rest todo_id updated_todo
      (t :: r.1, r.2)

/-- `delete_todo` handler: filter out every record with the given id; 404
when the count did not change, otherwise persist the filtered list. -/
def delete_todo (todos : List TodoItem) (todo_id : Int) :
    List TodoItem × Except ApiError Unit :=
  let remaining := todos.filter fun t => t.id ≠ todo_id
  if remaining.length = todos.length then (todos, .error .notFound)
  else (remaining, .ok ())

/-- `get_todo` handler: return the first record with the given id, else 404. -/
def get_todo (todos : List TodoItem) (todo_id : Int) : Except ApiError TodoItem :=
  match todos with
  | [] => .error .notFound
  | t :: rest => if t.id = todo_id then .ok t else get_todo rest todo_id

/-- `toggle_todo_status` handler: rebuild the first matching record with
`done` negated, persist; 404 when no record matches. -/
def toggle_todo_status (todos : List TodoItem) (todo_id : Int) :
    List TodoItem × Except ApiError TodoItem :=
  match todos with
  | [] => ([], .error .notFound)
  | t :: rest =>
    if t.id = todo_id then
      match TodoItem.validate t.id t.title t.description (!t.done) with
      | some updated => (updated :: rest, .ok updated)
      | none => (t :: rest, .error .validationError)
    else
      let r := toggle_todo_status rest todo_id
      (t :: r.1, r.2)

/-- Python string comparison: lexicographic by code point. -/
def lexLe : PyStr → PyStr → Bool
  | [], _ => true
  | _ :: _, [] => false
  | a :: s, b :: t => if a = b then lexLe s t else decide (a < b)

theorem lexLe_refl (s : PyStr) : lexLe s s = true := by
  induction s with
  | nil => rfl
  | cons a s ih => simp [lexLe, ih]

theorem lexLe_total (s t : PyStr) : lexLe s t = true ∨ lexLe t s = true := by
  induction s generalizing t with
  | nil => exact Or.inl rfl
  | cons a s ih =>
    cases t with
    | nil => exact Or.inr rfl
    | cons b t =>
      by_cases hab : a = b
      · subst hab
        simpa [lexLe] using ih t
      · rcases lt_or_gt_of_ne hab with h | h
        · exact Or.inl (by simp [lexLe, hab, h])
        · exact Or.inr (by simp [lexLe, Ne.symm hab, h])

theorem lexLe_trans {s t u : PyStr} (h1 : lexLe s t = true) (h2 : lexLe t u = true) :
    lexLe s u = true := by
  induction s generalizing t u with
  | nil => rfl
  | cons a s ih =>
    cases t with
    | nil => simp [lexLe] at h1
    | cons b t =>
      cases u with
      | nil => simp [lexLe] at h2
      | cons c u =>
        by_cases hab : a = b <;> by_cases hbc : b = c
        · subst hab; subst hbc
          simp only [lexLe, if_pos rfl] at h1 h2 ⊢
          exact ih h1 h2
        · subst hab
          simp only [lexLe, if_pos rfl, if_neg hbc] at h2
          have hac : ¬a = c := hbc
          simp only [lexLe, if_neg hac]
          exact h2
        · subst hbc
          simp only [lexLe, if_neg hab] at h1
          simp only [lexLe, if_neg hab]
          exact h1
        · simp only [lexLe, if_neg hab] at h1
          simp only [lexLe, if_neg hbc] at h2
          have h1' : a < b := by simpa using h1
          have h2' : b < c := by simpa using h2
          have hac : a < c := lt_trans h1' h2'
          have : ¬a = c := ne_of_lt hac
          simp [lexLe, this, hac]

/-- Sort keys produced by `key=lambda x: getattr(x, order_by)`. -/
inductive SortKey where
  | ki (i : Int)
  | ks (s : PyStr)
  | kb (b : Bool)
deriving DecidableEq, Repr

/-- Comparison on sort keys; heterogeneous cases never arise for a fixed
field but are ordered consistently so the relation is total and transitive. -/
def keyLe : SortKey → SortKey → Bool
  | .ki a, .ki b => decide (a ≤ b)
  | .ki _, _ => true
  | _, .ki _ => false
  | .ks a, .ks b => lexLe a b
  | .ks _, _ => true
  | _, .ks _ => false
  | .kb a, .kb b => !a || b

theorem keyLe_refl (k : SortKey) : keyLe k k = true := by
  cases k with
  | ki a => simp [keyLe]
  | ks s => simpa [keyLe] using lexLe_refl s
  | kb b => cases b <;> rfl

theorem keyLe_total (k l : SortKey) : keyLe k l = true ∨ keyLe l k = true := by
  cases k <;> cases l <;> simp_all [keyLe]
  case ki.ki a b => omega
  case ks.ks s t => exact lexLe_total s t
  case kb.kb a b => cases a <;> cases b <;> simp

theorem keyLe_trans {k l m : SortKey} (h1 : keyLe k l = true) (h2 : keyLe l m = true) :
    keyLe k m = true := by
  cases k <;> cases l <;> cases m <;> simp_all [keyLe]
  case ki.ki.ki => omega
  case ks.ks.ks => exact lexLe_trans h1 h2
  case kb.kb.kb a b c => cases a <;> cases b <;> cases c <;> simp_all

/-- `getattr(x, order_by)` for the four sortable fields. -/
def keyOf (f : PyStr) (t : TodoItem) : SortKey :=
  if f = "id".data then .ki t.id
  else if f = "title".data then .ks t.title
  else if f = "description".data then .ks t.description
  else .kb t.done

/-- The comparison `todos.sort(key=…)` sorts by for field `f`. -/
def fieldLe (f : PyStr) (a b : TodoItem) : Bool := keyLe (keyOf f a) (keyOf f b)

/-- Stable insertion: `x` goes in front of the first element not below it.
Models the placement discipline of Python's stable `list.sort`. -/
def sinsert {α : Type} (le : α → α → Bool) (x : α) : List α → List α
  | [] => [x]
  | y :: ys => if le x y then x :: y :: ys else y :: sinsert le x ys

/-- Stable sort (insertion sort), extensionally equal to Python's `list.sort`
with the same comparison: sorted output, ties in original order. -/
def ssort {α : Type} (le : α → α → Bool) : List α → List α
  | [] => []
  | x :: xs => sinsert le x (ssort le xs)

theorem sinsert_perm {α : Type} (le : α → α → Bool) (x : α) (l : List α) :
    List.Perm (sinsert le x l) (x :: l) := by
  induction l with
  | nil => exact List.Perm.refl _
  | cons y ys ih =>
    simp only [sinsert]
    split
    · exact List.Perm.refl _
    · exact (ih.cons y).trans (List.Perm.swap x y ys)

theorem ssort_perm {α : Type} (le : α → α → Bool) (l : List α) :
    List.Perm (ssort le l) l := by
  induction l with
  | nil => exact List.Perm.refl _
  | cons x xs ih => exact (sinsert_perm le x (ssort le xs)).trans (ih.cons x)

theorem mem_sinsert {α : Type} {le : α → α → Bool} {x b : α} {l : List α} :
    b ∈ sinsert le x l ↔ b = x ∨ b ∈ l := by
  simpa using (sinsert_perm le x l).mem_iff

theorem sinsert_sorted {α : Type} {le : α → α → Bool}
    (htot : ∀ a b, le a b = true ∨ le b a = true)
    (htrans : ∀ a b c, le a b = true → le b c = true → le a c = true)
    {x : α} {l : List α} (h : l.Pairwise fun a b => le a b = true) :
    (sinsert le x l).Pairwise fun a b => le a b = true := by
  induction l with
  | nil => simp [sinsert]
  | cons y ys ih =>
    rcases List.pairwise_cons.mp h with ⟨hy, hys⟩
    simp only [sinsert]
    split
    · rename_i hxy
      refine List.pairwise_cons.mpr ⟨?_, h⟩
      intro b hb
      rcases List.mem_cons.mp hb with rfl | hb
      · exact hxy
      · exact htrans x y b hxy (hy b hb)
    · rename_i hxy
      refine List.pairwise_cons.mpr ⟨?_, ih hys⟩
      intro b hb
      rcases mem_sinsert.mp hb with rfl | hb
      · rcases htot b y with h' | h'
        · exact absurd h' hxy
        · exact h'
      · exact hy b hb

theorem ssort_sorted {α : Type} {le : α → α → Bool}
    (htot : ∀ a b, le a b = true ∨ le b a = true)
    (htrans : ∀ a b c, le a b = true → le b c = true → le a c = true)
    (l : List α) : (ssort le l).Pairwise fun a b => le a b = true := by
  induction l with
  | nil => simp [ssort]
  | cons x xs ih => exact sinsert_sorted htot htrans ih

theorem sinsert_filter_pos {α : Type} {le : α → α → Bool} {p : α → Bool} {x : α}
    (hx : p x = true) (hle : ∀ b, p b = true → le x b = true) (l : List α) :
    (sinsert le x l).filter p = x :: l.filter p := by
  induction l with
  | nil => simp [sinsert, hx]
  | cons y ys ih =>
    simp only [sinsert]
    split
    · simp [List.filter_cons, hx]
    · rename_i hxy
      have hpy : p y = false := by
        cases hy : p y
        · rfl
        · exact absurd (hle y hy) hxy
      simp [List.filter_cons, hpy, ih]

theorem sinsert_filter_neg {α : Type} {le : α → α → Bool} {p : α → Bool} {x : α}
    (hx : p x = false) (l : List α) :
    (sinsert le x l).filter p = l.filter p := by
  induction l with
  | nil => simp [sinsert, hx]
  | cons y ys ih =>
    simp only [sinsert]
    split
    · simp [List.filter_cons, hx]
    · simp [List.filter_cons, ih]

/-- Stability of `ssort`: for a predicate whose holders are mutually
`le`-related, filtering the sorted list gives the original filtered list. -/
theorem ssort_filter {α : Type} {le : α → α → Bool} {p : α → Bool}
    (hcomp : ∀ a b, p a = true → p b = true → le a b = true) (l : List α) :
    (ssort le l).filter p = l.filter p := by
  induction l with
  | nil => rfl
  | cons x xs ih =>
    simp only [ssort]
    cases hx : p x
    · rw [sinsert_filter_neg hx, ih, List.filter_cons, hx]
      simp
    · rw [sinsert_filter_pos hx (fun b hb => hcomp x b hx hb), ih, List.filter_cons, hx]
      simp

/-- The response envelope of `GET /todos`. -/
structure ListResult where
  page : Nat
  size : Nat
  total : Nat
  total_pages : Nat
  items : List TodoItem
deriving DecidableEq, Repr

/-- Pagination tail of `list_todos`: slice `todos[(page-1)*size : (page-1)*size+size]`
and the envelope with `total_pages = (total + size - 1) // size`. -/
def paginate (todos : List TodoItem) (page size : Nat) : ListResult :=
  let total := todos.length
  let start_index := (page - 1) * size
  { page := page, size := size, total := total,
    total_pages := (total + size - 1) / size,
    items := (todos.drop start_index).take size }

/-- `todos.sort(key=lambda x: getattr(x, order_by), reverse=…)` where
`reverse = (order_direction == "desc")`: a stable sort by the field key,
with the comparison flipped when descending. -/
def sortTodos (todos : List TodoItem) (f : PyStr) (direction : PyStr) : List TodoItem :=
  if direction = "desc".data then ssort (fun a b => fieldLe f b a) todos
  else ssort (fieldLe f) todos

/-- `valid_fields = {"id", "title", "description", "done"}`. -/
def valid_fields : List PyStr :=
  ["id".data, "title".data, "description".data, "done".data]

/-- `list_todos` handler. `if order_by:` is Python truthiness, so both `None`
and the empty string skip validation and sorting; an invalid non-empty field
is HTTP 400. Query constraints `page ≥ 1`, `1 ≤ size ≤ 100` are enforced by
FastAPI before the handler runs and appear as hypotheses in the theorems. -/
def list_todos (todos : List TodoItem) (page size : Nat)
    (order_by : Option PyStr) (order_direction : PyStr) : Except ApiError ListResult :=
  match order_by with
  | none => .ok (paginate todos page size)
  | some f =>
    if f = [] then .ok (paginate todos page size)
    else if f ∈ valid_fields then
      .ok (paginate (sortTodos todos f order_direction) page size)
    else .error .invalidArgument

/-- The collection invariant stated by the spec: ids positive and pairwise
distinct, `title`/`description` non-empty after trimming. -/
def Invariant (todos : List TodoItem) : Prop :=
  (∀ t ∈ todos, 0 < t.id ∧ pstrip t.title ≠ [] ∧ pstrip t.description ≠ []) ∧
    (todos.map TodoItem.id).Nodup

/-- An item is a fixed point of pydantic validation; exactly the items
`load_all` can produce. -/
def ValidItem (t : TodoItem) : Prop :=
  TodoItem.validate t.id t.title t.description t.done = some t

instance : DecidablePred ValidItem := fun t =>
  decEq (TodoItem.validate t.id t.title t.description t.done) (some t)

/-- Unpacking a successful pydantic string-field validation. -/
theorem validateStr_some {maxLen : Nat} {v s : PyStr} (h : validateStr maxLen v = some s) :
    1 ≤ v.length ∧ v.length ≤ maxLen ∧ pstrip v ≠ [] ∧ s = pstrip v := by
  unfold validateStr at h
  split at h
  · simp at h
  · split at h
    · simp at h
    · split at h
      · simp at h
      · rename_i h1 h2 h3
        injection h with h
        exact ⟨by omega, by omega, h3, h.symm⟩

/-- Unpacking a successful pydantic construction. -/
theorem validate_some {id : Int} {title description : PyStr} {done : Bool} {u : TodoItem}
    (h : TodoItem.validate id title description done = some u) :
    0 < id ∧ u.id = id ∧ u.title = pstrip title ∧ u.description = pstrip description ∧
      u.done = done ∧ title.length ≤ 100 ∧ description.length ≤ 500 ∧
      pstrip title ≠ [] ∧ pstrip description ≠ [] := by
  unfold TodoItem.validate at h
  split at h
  · exact absurd h (by simp)
  · rename_i hid
    cases ht : validateStr 100 title with
    | none => rw [ht] at h; simp at h
    | some t' =>
      cases hd : validateStr 500 description with
      | none => rw [ht, hd] at h; simp at h
      | some d' =>
        rw [ht, hd] at h
        simp only [Option.some.injEq] at h
        obtain ⟨a1, a2, a3, a4⟩ := validateStr_some ht
        obtain ⟨b1, b2, b3, b4⟩ := validateStr_some hd
        subst h
        exact ⟨by omega, rfl, a4, b4, rfl, a2, b2, a3, b3⟩

/-- A successful pydantic construction, conversely. -/
theorem validate_of_conditions {id : Int} {title description : PyStr} {done : Bool}
    (hid : 0 < id) (h1 : 1 ≤ title.length) (h2 : title.length ≤ 100)
    (h3 : pstrip title ≠ []) (h4 : 1 ≤ description.length) (h5 : description.length ≤ 500)
    (h6 : pstrip description ≠ []) :
    TodoItem.validate id title description done =
      some ⟨id, pstrip title, pstrip description, done⟩ := by
  unfold TodoItem.validate validateStr
  rw [if_neg (by omega)]
  rw [if_neg (by omega), if_neg (by omega), if_neg h3, if_neg (by omega), if_neg (by omega),
    if_neg h6]

theorem loadRecords_ok_forall₂ {rs : List RawTodo} {l : List TodoItem}
    (h : loadRecords rs = .ok l) :
    List.Forall₂
      (fun r t => TodoItem.validate r.id r.title r.description r.done = some t) rs l := by
  induction rs generalizing l with
  | nil =>
    unfold loadRecords at h
    injection h with h
    subst h
    exact List.Forall₂.nil
  | cons r rs ih =>
    unfold loadRecords at h
    cases hv : TodoItem.validate r.id r.title r.description r.done with
    | none => rw [hv] at h; exact absurd h (by simp)
    | some t =>
      rw [hv] at h
      cases hrec : loadRecords rs with
      | error e => rw [hrec] at h; exact absurd h (by simp [Except.map])
      | ok ts =>
        rw [hrec] at h
        simp only [Except.map, Except.ok.injEq] at h
        subst h
        exact List.Forall₂.cons hv (ih hrec)

theorem loadRecords_error_of_invalid {r : RawTodo} {rs : List RawTodo}
    (hr : r ∈ rs) (hv : TodoItem.validate r.id r.title r.description r.done = none) :
    loadRecords rs = .error .validationError := by
  induction rs with
  | nil => cases hr
  | cons a as ih =>
    unfold loadRecords
    cases ha : TodoItem.validate a.id a.title a.description a.done with
    | none => rfl
    | some t =>
      have hras : r ∈ as := by
        rcases List.mem_cons.mp hr with rfl | h'
        · exact absurd ha (by rw [hv]; simp)
        · exact h'
      rw [ih hras]
      rfl

/-- C1 (amended): `load_all` returns the empty sequence when the store is
absent or its content fails to parse; a successfully loaded list reflects
every stored record validated in order (never partial data); but when any
stored record fails item validation, `load_all` raises the validation error
instead of returning an empty sequence. -/
theorem c1_load_all_fail_safe (records rs2 : List RawTodo) (l : List TodoItem) (r : RawTodo)
    (h : load_all (.parsed records) = .ok l) (hr : r ∈ rs2)
    (hv : TodoItem.validate r.id r.title r.description r.done = none) :
    load_all .absent = .ok [] ∧ load_all .corrupt = .ok [] ∧
      List.Forall₂
        (fun rec t => TodoItem.validate rec.id rec.title rec.description rec.done = some t)
        records l ∧
      load_all (.parsed rs2) = .error .validationError :=
  ⟨rfl, rfl, loadRecords_ok_forall₂ h, loadRecords_error_of_invalid hr hv⟩

theorem c1_load_all_fail_safe_witness :
    load_all .absent = .ok [] ∧ load_all .corrupt = .ok [] ∧
      List.Forall₂
        (fun rec t => TodoItem.validate rec.id rec.title rec.description rec.done = some t)
        [RawTodo.mk 1 ['a'] ['b'] false] [TodoItem.mk 1 ['a'] ['b'] false] ∧
      load_all (.parsed [RawTodo.mk 1 [] ['x'] false]) = .error .validationError :=
  c1_load_all_fail_safe [RawTodo.mk 1 ['a'] ['b'] false] [RawTodo.mk 1 [] ['x'] false]
    [TodoItem.mk 1 ['a'] ['b'] false] (RawTodo.mk 1 [] ['x'] false)
    (by rfl) (by simp) (by rfl)

/-- C1 as stated is false: a parsed store whose single record has an empty
title makes `load_all` raise a validation error, not return `[]`. -/
theorem c1_counterexample :
    TodoItem.validate 1 [] ['x'] false = none ∧
      load_all (.parsed [RawTodo.mk 1 [] ['x'] false]) = .error .validationError ∧
      load_all (.parsed [RawTodo.mk 1 [] ['x'] false]) ≠ .ok [] := by
  refine ⟨rfl, rfl, ?_⟩
  intro h
  exact Except.noConfusion h

/-- Unpacking a successful request-body validation. -/
theorem tc_validate_some {title description : PyStr} {done : Bool} {c : TodoCreate}
    (h : TodoCreate.validate title description done = some c) :
    c.title = pstrip title ∧ c.description = pstrip description ∧ c.done = done ∧
      1 ≤ title.length ∧ title.length ≤ 100 ∧ pstrip title ≠ [] ∧
      1 ≤ description.length ∧ description.length ≤ 500 ∧ pstrip description ≠ [] := by
  unfold TodoCreate.validate at h
  cases ht : validateStr 100 title with
  | none => rw [ht] at h; simp at h
  | some t' =>
    cases hd : validateStr 500 description with
    | none => rw [ht, hd] at h; simp at h
    | some d' =>
      rw [ht, hd] at h
      simp only [Option.some.injEq] at h
      obtain ⟨a1, a2, a3, a4⟩ := validateStr_some ht
      obtain ⟨b1, b2, b3, b4⟩ := validateStr_some hd
      subst h
      exact ⟨a4, b4, rfl, a1, a2, a3, b1, b2, b3⟩

/-- A successful request-body validation, conversely. -/
theorem tc_validate_of_conditions {title description : PyStr} {done : Bool}
    (h1 : 1 ≤ title.length) (h2 : title.length ≤ 100) (h3 : pstrip title ≠ [])
    (h4 : 1 ≤ description.length) (h5 : description.length ≤ 500)
    (h6 : pstrip description ≠ []) :
    TodoCreate.validate title description done =
      some ⟨pstrip title, pstrip description, done⟩ := by
  unfold TodoCreate.validate validateStr
  rw [if_neg (by omega), if_neg (by omega), if_neg h3, if_neg (by omega), if_neg (by omega),
    if_neg h6]

theorem foldl_max_init_le (l : List TodoItem) (init : Int) :
    init ≤ l.foldl (fun m t => max m t.id) init := by
  induction l generalizing init with
  | nil => simp
  | cons t ts ih =>
    exact le_trans (le_max_left init t.id) (ih (max init t.id))

theorem foldl_max_mem_le {t : TodoItem} {l : List TodoItem} (h : t ∈ l) (init : Int) :
    t.id ≤ l.foldl (fun m t => max m t.id) init := by
  induction l generalizing init with
  | nil => cases h
  | cons a as ih =>
    rcases List.mem_cons.mp h with rfl | h'
    · exact le_trans (le_max_right init t.id) (foldl_max_init_le as _)
    · exact ih h' _

theorem get_next_id_pos {todos : List TodoItem} (hpos : ∀ t ∈ todos, 0 < t.id) :
    0 < get_next_id todos := by
  cases todos with
  | nil => decide
  | cons a ts =>
    have h1 : 0 < a.id := hpos a (List.mem_cons_self a ts)
    have h2 := foldl_max_init_le ts a.id
    show 0 < (ts.foldl (fun m x => max m x.id) a.id) + 1
    omega

theorem get_next_id_gt {t : TodoItem} {todos : List TodoItem} (h : t ∈ todos) :
    t.id < get_next_id todos := by
  cases todos with
  | nil => cases h
  | cons a ts =>
    show t.id < (ts.foldl (fun m x => max m x.id) a.id) + 1
    rcases List.mem_cons.mp h with rfl | h'
    · have := foldl_max_init_le ts t.id
      omega
    · have := foldl_max_mem_le h' a.id
      omega

/-- The fold computing `max(ids)` is attained at the initial value or at
some element of the list. -/
theorem foldl_max_attained (ts : List TodoItem) (init : Int) :
    ts.foldl (fun m x => max m x.id) init = init ∨
      ∃ t ∈ ts, ts.foldl (fun m x => max m x.id) init = t.id := by
  induction ts generalizing init with
  | nil => exact Or.inl rfl
  | cons b bs ih =>
    rcases ih (max init b.id) with h | ⟨t, ht, h⟩
    · rcases max_choice init b.id with hm | hm
      · exact Or.inl (by simp only [List.foldl_cons]; rw [h, hm])
      · exact Or.inr ⟨b, List.mem_cons_self b bs, by simp only [List.foldl_cons]; rw [h, hm]⟩
    · exact Or.inr ⟨t, List.mem_cons_of_mem b ht, by simpa using h⟩

/-- On a nonempty collection, `get_next_id` is some present id plus one. -/
theorem get_next_id_attained {todos : List TodoItem} (h : todos ≠ []) :
    ∃ t ∈ todos, get_next_id todos = t.id + 1 := by
  cases todos with
  | nil => exact absurd rfl h
  | cons a ts =>
    have hs : get_next_id (a :: ts) = (ts.foldl (fun m x => max m x.id) a.id) + 1 := rfl
    rcases foldl_max_attained ts a.id with h' | ⟨t, ht, h'⟩
    · exact ⟨a, List.mem_cons_self a ts, by rw [hs, h']⟩
    · exact ⟨t, List.mem_cons_of_mem a ht, by rw [hs, h']⟩

/-- `create_todo` on a validated body always succeeds: the stored title and
description are the stripped raw inputs and the id is `get_next_id`. -/
theorem create_todo_ok {title description : PyStr} {done : Bool} {c : TodoCreate}
    (h : TodoCreate.validate title description done = some c) (todos : List TodoItem)
    (hpos : ∀ t ∈ todos, 0 < t.id) :
    create_todo todos c =
      (todos ++ [⟨get_next_id todos, pstrip title, pstrip description, done⟩],
        .ok ⟨get_next_id todos, pstrip title, pstrip description, done⟩) := by
  obtain ⟨e1, e2, e3, l1, l2, n1, l3, l4, n2⟩ := tc_validate_some h
  have hv := @validate_of_conditions (get_next_id todos) (pstrip title) (pstrip description)
    done (get_next_id_pos hpos)
    (pstrip_len_pos_of_ne_nil n1) (le_trans (pstrip_length_le title) l2)
    (by rw [pstrip_idem]; exact n1)
    (pstrip_len_pos_of_ne_nil n2) (le_trans (pstrip_length_le description) l4)
    (by rw [pstrip_idem]; exact n2)
  rw [pstrip_idem, pstrip_idem] at hv
  unfold create_todo
  rw [e1, e2, e3, hv]

/-- C2 (amended): the 1–100 / 1–500 length limits are enforced on the raw,
untrimmed input (pydantic `min_length`/`max_length` run before the trimming
validator); the emptiness check and the persisted values use the trimmed
strings. So validation succeeds iff the raw title has 1–100 characters, the
raw description 1–500, and neither is whitespace-only; on success the
trimmed values are what get persisted by `create`. -/
theorem c2_validation_trimming (title description : PyStr) (done : Bool) :
    ((∃ c, TodoCreate.validate title description done = some c) ↔
      (1 ≤ title.length ∧ title.length ≤ 100 ∧ pstrip title ≠ [] ∧
        1 ≤ description.length ∧ description.length ≤ 500 ∧ pstrip description ≠ [])) ∧
    (∀ c, TodoCreate.validate title description done = some c →
      c.title = pstrip title ∧ c.description = pstrip description ∧ c.done = done) ∧
    (∀ todos c, (∀ t ∈ todos, 0 < t.id) →
      TodoCreate.validate title description done = some c →
      create_todo todos c =
        (todos ++ [⟨get_next_id todos, pstrip title, pstrip description, done⟩],
          .ok ⟨get_next_id todos, pstrip title, pstrip description, done⟩)) := by
  refine ⟨⟨?_, ?_⟩, ?_, ?_⟩
  · rintro ⟨c, hc⟩
    obtain ⟨-, -, -, l1, l2, n1, l3, l4, n2⟩ := tc_validate_some hc
    exact ⟨l1, l2, n1, l3, l4, n2⟩
  · rintro ⟨l1, l2, n1, l3, l4, n2⟩
    exact ⟨_, tc_validate_of_conditions l1 l2 n1 l3 l4 n2⟩
  · intro c hc
    obtain ⟨e1, e2, e3, -, -, -, -, -, -⟩ := tc_validate_some hc
    exact ⟨e1, e2, e3⟩
  · intro todos c hpos hc
    exact create_todo_ok hc todos hpos

set_option maxRecDepth 8000 in
/-- C2 fails as stated: a title of 100 `a`s and a trailing space trims to
100 characters (so the claim demands success), yet validation rejects it
because the raw length 101 exceeds `max_length=100`. -/
theorem c2_counterexample :
    1 ≤ (pstrip (List.replicate 100 'a' ++ [' '])).length ∧
      (pstrip (List.replicate 100 'a' ++ [' '])).length ≤ 100 ∧
      TodoCreate.validate (List.replicate 100 'a' ++ [' ']) ['x'] false = none ∧
      TodoItem.validate 1 (List.replicate 100 'a' ++ [' ']) ['x'] false = none := by
  refine ⟨by decide, by decide, by decide, by decide⟩

/-- C3: on any collection with positive ids (all loadable collections), a
valid create appends exactly one item, whose id is `get_next_id`: strictly
greater than every present id, 1 on an empty collection, and the maximum
present id plus one otherwise. -/
theorem c3_create_next_id (todos : List TodoItem) (title description : PyStr) (done : Bool)
    (c : TodoCreate) (hpos : ∀ t ∈ todos, 0 < t.id)
    (h : TodoCreate.validate title description done = some c) :
    ∃ item, create_todo todos c = (todos ++ [item], .ok item) ∧
      item.id = get_next_id todos ∧
      (∀ t ∈ todos, t.id < item.id) ∧
      (todos = [] → item.id = 1) ∧
      (todos ≠ [] → ∃ t ∈ todos, item.id = t.id + 1) := by
  refine ⟨_, create_todo_ok h todos hpos, rfl, ?_, ?_, ?_⟩
  · intro t ht
    exact get_next_id_gt ht
  · rintro rfl
    rfl
  · intro hne
    exact get_next_id_attained hne

theorem c3_create_next_id_witness :
    ∃ item,
      create_todo [TodoItem.mk 2 ['a'] ['b'] false] (TodoCreate.mk ['x'] ['y'] false) =
        ([TodoItem.mk 2 ['a'] ['b'] false] ++ [item], .ok item) ∧
      item.id = get_next_id [TodoItem.mk 2 ['a'] ['b'] false] ∧
      (∀ t ∈ [TodoItem.mk 2 ['a'] ['b'] false], t.id < item.id) ∧
      ([TodoItem.mk 2 ['a'] ['b'] false] = [] → item.id = 1) ∧
      ([TodoItem.mk 2 ['a'] ['b'] false] ≠ [] →
        ∃ t ∈ [TodoItem.mk 2 ['a'] ['b'] false], item.id = t.id + 1) :=
  c3_create_next_id [TodoItem.mk 2 ['a'] ['b'] false] ['x'] ['y'] false
    (TodoCreate.mk ['x'] ['y'] false) (by decide) (by decide)

theorem valid_fields_ne_nil : ∀ f ∈ valid_fields, f ≠ [] := by decide

/-- C4: with `page ≥ 1` and `size ∈ [1,100]` (the FastAPI query constraints),
listing returns the envelope unchanged-total, the slice
`[(page-1)*size, (page-1)*size+size)` of the (possibly sorted) collection,
at most `size` items, `total_pages = ceil(total/size)` (0 for an empty
collection), and an empty items list past the last page. -/
theorem c4_pagination (todos : List TodoItem) (page size : Nat) (dir : PyStr)
    (hp : 1 ≤ page) (hs1 : 1 ≤ size) (hs2 : size ≤ 100) :
    list_todos todos page size none dir = .ok (paginate todos page size) ∧
    (∀ f, f ∈ valid_fields →
      list_todos todos page size (some f) dir =
        .ok (paginate (sortTodos todos f dir) page size)) ∧
    (∀ l : List TodoItem,
      (paginate l page size).page = page ∧
      (paginate l page size).size = size ∧
      (paginate l page size).total = l.length ∧
      (paginate l page size).items = (l.drop ((page - 1) * size)).take size ∧
      (paginate l page size).items.length ≤ size ∧
      (l.length = 0 → (paginate l page size).total_pages = 0) ∧
      (0 < l.length →
        size * ((paginate l page size).total_pages - 1) < l.length ∧
        l.length ≤ size * (paginate l page size).total_pages) ∧
      (l.length ≤ (page - 1) * size → (paginate l page size).items = [])) := by
  refine ⟨rfl, ?_, ?_⟩
  · intro f hf
    have hne : f ≠ [] := valid_fields_ne_nil f hf
    simp only [list_todos]
    rw [if_neg hne, if_pos hf]
  · intro l
    have htp : (paginate l page size).total_pages = (l.length + size - 1) / size := rfl
    have hit : (paginate l page size).items = (l.drop ((page - 1) * size)).take size := rfl
    refine ⟨rfl, rfl, rfl, rfl, ?_, ?_, ?_, ?_⟩
    · rw [hit]
      simp [min_le_left size (l.drop ((page - 1) * size)).length]
    · intro h0
      rw [htp, h0]
      have : size - 1 < size := by omega
      simp [Nat.div_eq_of_lt this]
    · intro hpos
      rw [htp]
      have hd := Nat.div_add_mod (l.length + size - 1) size
      have hm : (l.length + size - 1) % size < size := Nat.mod_lt _ (by omega)
      rcases Nat.eq_zero_or_pos ((l.length + size - 1) / size) with hq | hq
      · rw [hq] at hd
        omega
      · constructor
        · have h1 : size * ((l.length + size - 1) / size - 1) =
              size * ((l.length + size - 1) / size) - size := by
            rw [Nat.mul_sub_one]
          omega
        · omega
    · intro hle
      rw [hit, List.drop_eq_nil_of_le hle, List.take_nil]

theorem c4_pagination_witness :
    list_todos [] 1 1 none [] = .ok (paginate [] 1 1) ∧
    (∀ f, f ∈ valid_fields →
      list_todos [] 1 1 (some f) [] = .ok (paginate (sortTodos [] f []) 1 1)) ∧
    (∀ l : List TodoItem,
      (paginate l 1 1).page = 1 ∧
      (paginate l 1 1).size = 1 ∧
      (paginate l 1 1).total = l.length ∧
      (paginate l 1 1).items = (l.drop ((1 - 1) * 1)).take 1 ∧
      (paginate l 1 1).items.length ≤ 1 ∧
      (l.length = 0 → (paginate l 1 1).total_pages = 0) ∧
      (0 < l.length →
        1 * ((paginate l 1 1).total_pages - 1) < l.length ∧
        l.length ≤ 1 * (paginate l 1 1).total_pages) ∧
      (l.length ≤ (1 - 1) * 1 → (paginate l 1 1).items = [])) :=
  c4_pagination [] 1 1 [] (by decide) (by decide) (by decide)

theorem fieldLe_total (f : PyStr) (a b : TodoItem) :
    fieldLe f a b = true ∨ fieldLe f b a = true :=
  keyLe_total (keyOf f a) (keyOf f b)

theorem fieldLe_trans {f : PyStr} {a b c : TodoItem}
    (h1 : fieldLe f a b = true) (h2 : fieldLe f b c = true) : fieldLe f a c = true :=
  keyLe_trans h1 h2

/-- C5 (amended): a non-empty `order_by` outside `{id,title,description,done}`
fails with HTTP 400 — but the empty string is falsy in `if order_by:`, so
`order_by=""` skips both validation and sorting; a valid field sorts the full
collection by that field, ascending unless `order_direction == "desc"` (any
other direction value is ascending), with a stable sort: items with equal
keys keep their original load order. -/
theorem c5_sorting (todos : List TodoItem) (page size : Nat) (f dir : PyStr) :
    (list_todos todos page size (some f) dir = .error .invalidArgument ↔
      (f ≠ [] ∧ f ∉ valid_fields)) ∧
    (f ∈ valid_fields →
      list_todos todos page size (some f) dir =
        .ok (paginate (sortTodos todos f dir) page size)) ∧
    List.Perm (sortTodos todos f dir) todos ∧
    (dir ≠ "desc".data →
      (sortTodos todos f dir).Pairwise fun a b => fieldLe f a b = true) ∧
    (dir = "desc".data →
      (sortTodos todos f dir).Pairwise fun a b => fieldLe f b a = true) ∧
    (∀ k : SortKey,
      (sortTodos todos f dir).filter (fun t => keyOf f t == k) =
        todos.filter fun t => keyOf f t == k) := by
  refine ⟨?_, ?_, ?_, ?_, ?_, ?_⟩
  · by_cases h0 : f = []
    · subst h0
      simp only [list_todos, if_pos rfl]
      constructor
      · intro h
        exact absurd h (by simp)
      · rintro ⟨h, -⟩
        exact absurd rfl h
    · by_cases h1 : f ∈ valid_fields
      · simp only [list_todos]
        rw [if_neg h0, if_pos h1]
        constructor
        · intro h
          exact absurd h (by simp)
        · rintro ⟨-, h⟩
          exact absurd h1 h
      · simp only [list_todos]
        rw [if_neg h0, if_neg h1]
        exact ⟨fun _ => ⟨h0, h1⟩, fun _ => rfl⟩
  · intro h1
    have h0 : f ≠ [] := valid_fields_ne_nil f h1
    simp only [list_todos]
    rw [if_neg h0, if_pos h1]
  · unfold sortTodos
    split
    · exact ssort_perm _ todos
    · exact ssort_perm _ todos
  · intro hdir
    unfold sortTodos
    rw [if_neg hdir]
    exact ssort_sorted (fieldLe_total f) (fun a b c => fieldLe_trans) todos
  · intro hdir
    unfold sortTodos
    rw [if_pos hdir]
    exact ssort_sorted (fun a b => fieldLe_total f b a)
      (fun a b c h1 h2 => fieldLe_trans h2 h1) todos
  · intro k
    have hcomp : ∀ a b : TodoItem, (keyOf f a == k) = true → (keyOf f b == k) = true →
        fieldLe f a b = true := by
      intro a b ha hb
      have ha' : keyOf f a = k := by simpa using ha
      have hb' : keyOf f b = k := by simpa using hb
      unfold fieldLe
      rw [ha', hb']
      exact keyLe_refl k
    unfold sortTodos
    split
    · exact ssort_filter (fun a b ha hb => hcomp b a hb ha) todos
    · exact ssort_filter hcomp todos

/-- C5 fails as stated: `order_by=""` is "given" and is not one of the four
valid fields, yet the listing succeeds (unsorted) instead of failing with
`InvalidArgument`, because `if order_by:` treats the empty string as absent. -/
theorem c5_counterexample :
    (([] : PyStr) ∉ valid_fields) ∧
      list_todos [TodoItem.mk 1 ['a'] ['b'] false] 1 10 (some []) ['a', 's', 'c'] =
        .ok (paginate [TodoItem.mk 1 ['a'] ['b'] false] 1 10) :=
  ⟨by decide, rfl⟩

theorem get_notFound_iff (todos : List TodoItem) (tid : Int) :
    get_todo todos tid = .error .notFound ↔ ∀ t ∈ todos, t.id ≠ tid := by
  induction todos with
  | nil => simp [get_todo]
  | cons t rest ih =>
    by_cases h : t.id = tid
    · simp only [get_todo, if_pos h]
      constructor
      · intro hc
        exact absurd hc (by simp)
      · intro hall
        exact absurd h (hall t (List.mem_cons_self t rest))
    · simp only [get_todo, if_neg h]
      rw [ih]
      constructor
      · intro hall t' ht'
        rcases List.mem_cons.mp ht' with rfl | h'
        · exact h
        · exact hall t' h'
      · intro hall t' ht'
        exact hall t' (List.mem_cons_of_mem t ht')

theorem get_ok_structure {todos : List TodoItem} {tid : Int} {u : TodoItem}
    (h : get_todo todos tid = .ok u) :
    ∃ i, todos[i]? = some u ∧ u.id = tid ∧
      ∀ (j : Nat) (t' : TodoItem), j < i → todos[j]? = some t' → t'.id ≠ tid := by
  induction todos with
  | nil => exact absurd h (by simp [get_todo])
  | cons t rest ih =>
    by_cases h0 : t.id = tid
    · rw [get_todo, if_pos h0] at h
      injection h with h
      subst h
      exact ⟨0, by simp, h0, fun j t' hj _ => absurd hj (Nat.not_lt_zero j)⟩
    · rw [get_todo, if_neg h0] at h
      obtain ⟨i, h1, h2, h3⟩ := ih h
      refine ⟨i + 1, by simpa using h1, h2, ?_⟩
      intro j t' hj hjt
      cases j with
      | zero =>
        simp only [List.getElem?_cons_zero, Option.some.injEq] at hjt
        subst hjt
        exact h0
      | succ j' =>
        rw [List.getElem?_cons_succ] at hjt
        exact h3 j' t' (by omega) hjt

theorem update_notFound_iff (todos : List TodoItem) (tid : Int) (inp : TodoCreate) :
    (update_todo todos tid inp).2 = .error .notFound ↔ ∀ t ∈ todos, t.id ≠ tid := by
  induction todos with
  | nil => simp [update_todo]
  | cons t rest ih =>
    by_cases h : t.id = tid
    · cases hv : TodoItem.validate tid inp.title inp.description inp.done with
      | some u =>
        rw [update_todo, if_pos h, hv]
        constructor
        · intro hc
          exact absurd hc (by simp)
        · intro hall
          exact absurd h (hall t (List.mem_cons_self t rest))
      | none =>
        rw [update_todo, if_pos h, hv]
        constructor
        · intro hc
          exact absurd hc (by simp)
        · intro hall
          exact absurd h (hall t (List.mem_cons_self t rest))
    · rw [update_todo, if_neg h]
      show (update_todo rest tid inp).2 = .error .notFound ↔ _
      rw [ih]
      constructor
      · intro hall t' ht'
        rcases List.mem_cons.mp ht' with rfl | h'
        · exact h
        · exact hall t' h'
      · intro hall t' ht'
        exact hall t' (List.mem_cons_of_mem t ht')

theorem update_error_store {todos : List TodoItem} {tid : Int} {inp : TodoCreate} {e : ApiError}
    (h : (update_todo todos tid inp).2 = .error e) :
    (update_todo todos tid inp).1 = todos := by
  induction todos with
  | nil => rfl
  | cons t rest ih =>
    by_cases h0 : t.id = tid
    · cases hv : TodoItem.validate tid inp.title inp.description inp.done with
      | some u =>
        rw [update_todo, if_pos h0, hv] at h
        exact absurd h (by simp)
      | none =>
        rw [update_todo, if_pos h0, hv]
    · rw [update_todo, if_neg h0] at h ⊢
      show t :: (update_todo rest tid inp).1 = t :: rest
      rw [ih h]

theorem update_ok_structure {todos : List TodoItem} {tid : Int} {inp : TodoCreate} {u : TodoItem}
    (h : (update_todo todos tid inp).2 = .ok u) :
    TodoItem.validate tid inp.title inp.description inp.done = some u ∧
      ∃ i, ∃ told : TodoItem, todos[i]? = some told ∧ told.id = tid ∧
        (∀ (j : Nat) (t' : TodoItem), j < i → todos[j]? = some t' → t'.id ≠ tid) ∧
        (update_todo todos tid inp).1 = todos.set i u := by
  induction todos with
  | nil => exact absurd h (by simp [update_todo])
  | cons t rest ih =>
    by_cases h0 : t.id = tid
    · cases hv : TodoItem.validate tid inp.title inp.description inp.done with
      | some u' =>
        rw [update_todo, if_pos h0, hv] at h ⊢
        injection h with h
        subst h
        exact ⟨rfl, 0, t, by simp, h0,
          fun j t' hj _ => absurd hj (Nat.not_lt_zero j), by simp⟩
      | none =>
        rw [update_todo, if_pos h0, hv] at h
        exact absurd h (by simp)
    · rw [update_todo, if_neg h0] at h ⊢
      obtain ⟨hv, i, told, h1, h2, h3, h4⟩ := ih h
      refine ⟨hv, i + 1, told, by simpa using h1, h2, ?_, ?_⟩
      · intro j t' hj hjt
        cases j with
        | zero =>
          simp only [List.getElem?_cons_zero, Option.some.injEq] at hjt
          subst hjt
          exact h0
        | succ j' =>
          rw [List.getElem?_cons_succ] at hjt
          exact h3 j' t' (by omega) hjt
      · show t :: (update_todo rest tid inp).1 = (t :: rest).set (i + 1) u
        rw [h4, List.set_cons_succ]

theorem toggle_notFound_iff (todos : List TodoItem) (tid : Int) :
    (toggle_todo_status todos tid).2 = .error .notFound ↔ ∀ t ∈ todos, t.id ≠ tid := by
  induction todos with
  | nil => simp [toggle_todo_status]
  | cons t rest ih =>
    by_cases h : t.id = tid
    · cases hv : TodoItem.validate t.id t.title t.description (!t.done) with
      | some u =>
        rw [toggle_todo_status, if_pos h, hv]
        constructor
        · intro hc
          exact absurd hc (by simp)
        · intro hall
          exact absurd h (hall t (List.mem_cons_self t rest))
      | none =>
        rw [toggle_todo_status, if_pos h, hv]
        constructor
        · intro hc
          exact absurd hc (by simp)
        · intro hall
          exact absurd h (hall t (List.mem_cons_self t rest))
    · rw [toggle_todo_status, if_neg h]
      show (toggle_todo_status rest tid).2 = .error .notFound ↔ _
      rw [ih]
      constructor
      · intro hall t' ht'
        rcases List.mem_cons.mp ht' with rfl | h'
        · exact h
        · exact hall t' h'
      · intro hall t' ht'
        exact hall t' (List.mem_cons_of_mem t ht')

theorem toggle_error_store {todos : List TodoItem} {tid : Int} {e : ApiError}
    (h : (toggle_todo_status todos tid).2 = .error e) :
    (toggle_todo_status todos tid).1 = todos := by
  induction todos with
  | nil => rfl
  | cons t rest ih =>
    by_cases h0 : t.id = tid
    · cases hv : TodoItem.validate t.id t.title t.description (!t.done) with
      | some u =>
        rw [toggle_todo_status, if_pos h0, hv] at h
        exact absurd h (by simp)
      | none =>
        rw [toggle_todo_status, if_pos h0, hv]
    · rw [toggle_todo_status, if_neg h0] at h ⊢
      show t :: (toggle_todo_status rest tid).1 = t :: rest
      rw [ih h]

theorem toggle_ok_structure {todos : List TodoItem} {tid : Int} {u : TodoItem}
    (h : (toggle_todo_status todos tid).2 = .ok u) :
    ∃ i, ∃ told : TodoItem, todos[i]? = some told ∧ told.id = tid ∧
      TodoItem.validate told.id told.title told.description (!told.done) = some u ∧
      (∀ (j : Nat) (t' : TodoItem), j < i → todos[j]? = some t' → t'.id ≠ tid) ∧
      (toggle_todo_status todos tid).1 = todos.set i u := by
  induction todos with
  | nil => exact absurd h (by simp [toggle_todo_status])
  | cons t rest ih =>
    by_cases h0 : t.id = tid
    · cases hv : TodoItem.validate t.id t.title t.description (!t.done) with
      | some u' =>
        rw [toggle_todo_status, if_pos h0, hv] at h ⊢
        injection h with h
        subst h
        exact ⟨0, t, by simp, h0, hv,
          fun j t' hj _ => absurd hj (Nat.not_lt_zero j), by simp⟩
      | none =>
        rw [toggle_todo_status, if_pos h0, hv] at h
        exact absurd h (by simp)
    · rw [toggle_todo_status, if_neg h0] at h ⊢
      obtain ⟨i, told, h1, h2, hv, h3, h4⟩ := ih h
      refine ⟨i + 1, told, by simpa using h1, h2, hv, ?_, ?_⟩
      · intro j t' hj hjt
        cases j with
        | zero =>
          simp only [List.getElem?_cons_zero, Option.some.injEq] at hjt
          subst hjt
          exact h0
        | succ j' =>
          rw [List.getElem?_cons_succ] at hjt
          exact h3 j' t' (by omega) hjt
      · show t :: (toggle_todo_status rest tid).1 = (t :: rest).set (i + 1) u
        rw [h4, List.set_cons_succ]

theorem delete_store (todos : List TodoItem) (tid : Int) :
    (delete_todo todos tid).1 = todos.filter fun t => t.id ≠ tid := by
  simp only [delete_todo]
  split
  · rename_i hlen
    exact ((todos.filter_sublist).eq_of_length hlen).symm
  · rfl

theorem delete_notFound_iff (todos : List TodoItem) (tid : Int) :
    (delete_todo todos tid).2 = .error .notFound ↔ ∀ t ∈ todos, t.id ≠ tid := by
  simp only [delete_todo]
  split
  · rename_i hlen
    have hfe : todos.filter (fun t => t.id ≠ tid) = todos :=
      (todos.filter_sublist).eq_of_length hlen
    simp only [true_iff, show ((todos, Except.error ApiError.notFound) :
      List TodoItem × Except ApiError Unit).2 = .error .notFound from rfl]
    intro t ht
    have := List.filter_eq_self.mp hfe t ht
    simpa using this
  · rename_i hlen
    constructor
    · intro hc
      exact absurd hc (by simp)
    · intro hall
      exact absurd (List.filter_eq_self.mpr fun t ht => decide_eq_true (hall t ht)) (by
        intro hfe
        exact hlen (by rw [hfe]))

/-- C6: `get`, `update`, `delete` and `toggle` fail with `NotFound` exactly
when no record carries the requested id; whenever any of them fails (404 or
a validation failure inside the handler), the stored collection is exactly
what it was; and deleting an id twice fails with `NotFound` the second time. -/
theorem c6_not_found (todos : List TodoItem) (tid : Int) (inp : TodoCreate) :
    (get_todo todos tid = .error .notFound ↔ ∀ t ∈ todos, t.id ≠ tid) ∧
    ((update_todo todos tid inp).2 = .error .notFound ↔ ∀ t ∈ todos, t.id ≠ tid) ∧
    ((delete_todo todos tid).2 = .error .notFound ↔ ∀ t ∈ todos, t.id ≠ tid) ∧
    ((toggle_todo_status todos tid).2 = .error .notFound ↔ ∀ t ∈ todos, t.id ≠ tid) ∧
    (∀ e, (update_todo todos tid inp).2 = .error e → (update_todo todos tid inp).1 = todos) ∧
    (∀ e, (delete_todo todos tid).2 = .error e → (delete_todo todos tid).1 = todos) ∧
    (∀ e, (toggle_todo_status todos tid).2 = .error e →
      (toggle_todo_status todos tid).1 = todos) ∧
    ((delete_todo todos tid).2 = .ok () →
      (delete_todo (delete_todo todos tid).1 tid).2 = .error .notFound) := by
  refine ⟨get_notFound_iff todos tid, update_notFound_iff todos tid inp,
    delete_notFound_iff todos tid, toggle_notFound_iff todos tid,
    fun e h => update_error_store h, ?_, fun e h => toggle_error_store h, ?_⟩
  · intro e h
    simp only [delete_todo] at h ⊢
    split at h
    · rename_i hlen
      rw [if_pos hlen]
    · exact absurd h (by simp)
  · intro h
    apply (delete_notFound_iff _ tid).mpr
    intro t ht
    rw [delete_store todos tid] at ht
    have := List.of_mem_filter ht
    simpa using this

theorem map_id_update (todos : List TodoItem) (tid : Int) (inp : TodoCreate) :
    (update_todo todos tid inp).1.map TodoItem.id = todos.map TodoItem.id := by
  induction todos with
  | nil => rfl
  | cons t rest ih =>
    by_cases h0 : t.id = tid
    · cases hv : TodoItem.validate tid inp.title inp.description inp.done with
      | some u =>
        rw [update_todo, if_pos h0, hv]
        obtain ⟨-, hid, -⟩ := validate_some hv
        show u.id :: rest.map TodoItem.id = t.id :: rest.map TodoItem.id
        rw [hid, h0]
      | none =>
        rw [update_todo, if_pos h0, hv]
    · rw [update_todo, if_neg h0]
      show TodoItem.id t :: (update_todo rest tid inp).1.map TodoItem.id = _
      rw [ih]
      rfl

theorem map_id_toggle (todos : List TodoItem) (tid : Int) :
    (toggle_todo_status todos tid).1.map TodoItem.id = todos.map TodoItem.id := by
  induction todos with
  | nil => rfl
  | cons t rest ih =>
    by_cases h0 : t.id = tid
    · cases hv : TodoItem.validate t.id t.title t.description (!t.done) with
      | some u =>
        rw [toggle_todo_status, if_pos h0, hv]
        obtain ⟨-, hid, -⟩ := validate_some hv
        show u.id :: rest.map TodoItem.id = t.id :: rest.map TodoItem.id
        rw [hid]
      | none =>
        rw [toggle_todo_status, if_pos h0, hv]
    · rw [toggle_todo_status, if_neg h0]
      show TodoItem.id t :: (toggle_todo_status rest tid).1.map TodoItem.id = _
      rw [ih]
      rfl

/-- Items produced by a successful pydantic construction satisfy the
pointwise invariant. -/
theorem validate_inv {id : Int} {title description : PyStr} {done : Bool} {u : TodoItem}
    (h : TodoItem.validate id title description done = some u) :
    0 < u.id ∧ pstrip u.title ≠ [] ∧ pstrip u.description ≠ [] := by
  obtain ⟨hpos, hid, ht, hd, -, -, -, hn1, hn2⟩ := validate_some h
  refine ⟨by omega, ?_, ?_⟩
  · rw [ht, pstrip_idem]
    exact hn1
  · rw [hd, pstrip_idem]
    exact hn2

/-- C7: every operation preserves the collection invariant (positive,
pairwise-distinct ids; non-whitespace-only titles and descriptions), and
`update`/`toggle` leave the sequence of ids — in particular each item's
id — unchanged. -/
theorem c7_invariant (todos : List TodoItem) (inp : TodoCreate) (tid : Int)
    (h : Invariant todos) :
    Invariant (create_todo todos inp).1 ∧ Invariant (update_todo todos tid inp).1 ∧
    Invariant (delete_todo todos tid).1 ∧ Invariant (toggle_todo_status todos tid).1 ∧
    (update_todo todos tid inp).1.map TodoItem.id = todos.map TodoItem.id ∧
    (toggle_todo_status todos tid).1.map TodoItem.id = todos.map TodoItem.id := by
  obtain ⟨hpt, hnd⟩ := h
  refine ⟨?_, ?_, ?_, ?_, map_id_update todos tid inp, map_id_toggle todos tid⟩
  · cases hv : TodoItem.validate (get_next_id todos) inp.title inp.description inp.done with
    | some u =>
      have hs : (create_todo todos inp).1 = todos ++ [u] := by
        unfold create_todo
        rw [hv]
      rw [hs]
      constructor
      · intro t ht
        rcases List.mem_append.mp ht with h' | h'
        · exact hpt t h'
        · rw [List.mem_singleton] at h'
          subst h'
          exact validate_inv hv
      · rw [List.map_append, List.nodup_append]
        refine ⟨hnd, List.nodup_singleton _, ?_⟩
        intro x hx hx1
        simp only [List.map_cons, List.map_nil, List.mem_singleton] at hx1
        obtain ⟨t, ht, hxid⟩ := List.mem_map.mp hx
        obtain ⟨hpos, hid, -⟩ := validate_some hv
        have := get_next_id_gt ht
        omega
    | none =>
      have hs : (create_todo todos inp).1 = todos := by
        unfold create_todo
        rw [hv]
      rw [hs]
      exact ⟨hpt, hnd⟩
  · cases hres : (update_todo todos tid inp).2 with
    | error e =>
      rw [update_error_store hres]
      exact ⟨hpt, hnd⟩
    | ok u =>
      obtain ⟨hv, i, told, h1, h2, h3, h4⟩ := update_ok_structure hres
      rw [h4]
      constructor
      · intro t ht
        rcases List.mem_or_eq_of_mem_set ht with h' | h'
        · exact hpt t h'
        · subst h'
          exact validate_inv hv
      · have := map_id_update todos tid inp
        rw [h4] at this
        rw [this]
        exact hnd
  · rw [delete_store]
    constructor
    · intro t ht
      exact hpt t (List.mem_of_mem_filter ht)
    · exact hnd.sublist ((todos.filter_sublist).map TodoItem.id)
  · cases hres : (toggle_todo_status todos tid).2 with
    | error e =>
      rw [toggle_error_store hres]
      exact ⟨hpt, hnd⟩
    | ok u =>
      obtain ⟨i, told, h1, h2, hv, h3, h4⟩ := toggle_ok_structure hres
      rw [h4]
      constructor
      · intro t ht
        rcases List.mem_or_eq_of_mem_set ht with h' | h'
        · exact hpt t h'
        · subst h'
          exact validate_inv hv
      · have := map_id_toggle todos tid
        rw [h4] at this
        rw [this]
        exact hnd

theorem c7_invariant_witness :
    Invariant (create_todo [TodoItem.mk 1 ['a'] ['b'] false]
      (TodoCreate.mk ['c'] ['d'] true)).1 ∧
    Invariant (update_todo [TodoItem.mk 1 ['a'] ['b'] false] 1
      (TodoCreate.mk ['c'] ['d'] true)).1 ∧
    Invariant (delete_todo [TodoItem.mk 1 ['a'] ['b'] false] 1).1 ∧
    Invariant (toggle_todo_status [TodoItem.mk 1 ['a'] ['b'] false] 1).1 ∧
    (update_todo [TodoItem.mk 1 ['a'] ['b'] false] 1
      (TodoCreate.mk ['c'] ['d'] true)).1.map TodoItem.id =
      [TodoItem.mk 1 ['a'] ['b'] false].map TodoItem.id ∧
    (toggle_todo_status [TodoItem.mk 1 ['a'] ['b'] false] 1).1.map TodoItem.id =
      [TodoItem.mk 1 ['a'] ['b'] false].map TodoItem.id :=
  c7_invariant [TodoItem.mk 1 ['a'] ['b'] false] (TodoCreate.mk ['c'] ['d'] true) 1
    ⟨by decide, by decide⟩

/-- A valid (loadable) item re-validates unchanged under any `done` flag —
exactly what `toggle_todo_status` does to the record it rebuilds. -/
theorem valid_item_toggle {t : TodoItem} (h : ValidItem t) (d : Bool) :
    TodoItem.validate t.id t.title t.description d =
      some (TodoItem.mk t.id t.title t.description d) := by
  obtain ⟨hpos, -, ht, hd, -, l2, l4, n1, n2⟩ := validate_some h
  have hv := @validate_of_conditions t.id t.title t.description d hpos
    (by rw [ht]; exact pstrip_len_pos_of_ne_nil n1) l2 n1
    (by rw [hd]; exact pstrip_len_pos_of_ne_nil n2) l4 n2
  rw [hv, ← ht, ← hd]

/-- C8: a successful `update` or `toggle` changes exactly one record: the
first one with the requested id is replaced (update: by the validated body
fields under the same id; toggle: by the same fields with `done` negated),
and every other position, the order and the length are untouched. -/
theorem c8_frame (todos : List TodoItem) (tid : Int) (inp : TodoCreate) (u v : TodoItem)
    (hvalid : ∀ t ∈ todos, ValidItem t)
    (hu : (update_todo todos tid inp).2 = .ok u)
    (hv : (toggle_todo_status todos tid).2 = .ok v) :
    u.id = tid ∧ u.title = pstrip inp.title ∧ u.description = pstrip inp.description ∧
      u.done = inp.done ∧
    (∃ i, ∃ told : TodoItem, todos[i]? = some told ∧ told.id = tid ∧
      (update_todo todos tid inp).1 = todos.set i u ∧
      ∀ j : Nat, j ≠ i → (update_todo todos tid inp).1[j]? = todos[j]?) ∧
    (update_todo todos tid inp).1.length = todos.length ∧
    (∃ i, ∃ told : TodoItem, todos[i]? = some told ∧ told.id = tid ∧
      v = TodoItem.mk told.id told.title told.description (!told.done) ∧
      (toggle_todo_status todos tid).1 = todos.set i v ∧
      ∀ j : Nat, j ≠ i → (toggle_todo_status todos tid).1[j]? = todos[j]?) ∧
    (toggle_todo_status todos tid).1.length = todos.length := by
  obtain ⟨hval, i, told, h1, h2, h3, h4⟩ := update_ok_structure hu
  obtain ⟨hpos, hid, ht, hd, hdn, -⟩ := validate_some hval
  obtain ⟨i2, told2, g1, g2, gval, g3, g4⟩ := toggle_ok_structure hv
  have hvt : ValidItem told2 := hvalid told2 (List.mem_iff_getElem?.mpr ⟨i2, g1⟩)
  have := valid_item_toggle hvt (!told2.done)
  rw [gval] at this
  injection this with hveq
  refine ⟨hid, ht, hd, hdn, ⟨i, told, h1, h2, h4, ?_⟩, ?_, ⟨i2, told2, g1, g2, hveq, g4, ?_⟩, ?_⟩
  · intro j hj
    rw [h4]
    exact List.getElem?_set_ne (fun he => hj he.symm)
  · rw [h4]
    simp
  · intro j hj
    rw [g4]
    exact List.getElem?_set_ne (fun he => hj he.symm)
  · rw [g4]
    simp

theorem c8_frame_witness :
    (TodoItem.mk 1 ['c'] ['d'] true).id = 1 ∧
    (TodoItem.mk 1 ['c'] ['d'] true).title = pstrip (TodoCreate.mk ['c'] ['d'] true).title ∧
    (TodoItem.mk 1 ['c'] ['d'] true).description =
      pstrip (TodoCreate.mk ['c'] ['d'] true).description ∧
    (TodoItem.mk 1 ['c'] ['d'] true).done = (TodoCreate.mk ['c'] ['d'] true).done ∧
    (∃ i, ∃ told : TodoItem, [TodoItem.mk 1 ['a'] ['b'] false][i]? = some told ∧
      told.id = 1 ∧
      (update_todo [TodoItem.mk 1 ['a'] ['b'] false] 1 (TodoCreate.mk ['c'] ['d'] true)).1 =
        [TodoItem.mk 1 ['a'] ['b'] false].set i (TodoItem.mk 1 ['c'] ['d'] true) ∧
      ∀ j : Nat, j ≠ i →
        (update_todo [TodoItem.mk 1 ['a'] ['b'] false] 1
          (TodoCreate.mk ['c'] ['d'] true)).1[j]? =
          [TodoItem.mk 1 ['a'] ['b'] false][j]?) ∧
    (update_todo [TodoItem.mk 1 ['a'] ['b'] false] 1
      (TodoCreate.mk ['c'] ['d'] true)).1.length =
      [TodoItem.mk 1 ['a'] ['b'] false].length ∧
    (∃ i, ∃ told : TodoItem, [TodoItem.mk 1 ['a'] ['b'] false][i]? = some told ∧
      told.id = 1 ∧
      TodoItem.mk 1 ['a'] ['b'] true =
        TodoItem.mk told.id told.title told.description (!told.done) ∧
      (toggle_todo_status [TodoItem.mk 1 ['a'] ['b'] false] 1).1 =
        [TodoItem.mk 1 ['a'] ['b'] false].set i (TodoItem.mk 1 ['a'] ['b'] true) ∧
      ∀ j : Nat, j ≠ i →
        (toggle_todo_status [TodoItem.mk 1 ['a'] ['b'] false] 1).1[j]? =
          [TodoItem.mk 1 ['a'] ['b'] false][j]?) ∧
    (toggle_todo_status [TodoItem.mk 1 ['a'] ['b'] false] 1).1.length =
      [TodoItem.mk 1 ['a'] ['b'] false].length :=
  c8_frame [TodoItem.mk 1 ['a'] ['b'] false] 1 (TodoCreate.mk ['c'] ['d'] true)
    (TodoItem.mk 1 ['c'] ['d'] true) (TodoItem.mk 1 ['a'] ['b'] true)
    (by decide) (by rfl) (by rfl)

/-- C9: credential verification succeeds (returning the username) exactly for
the two fixed accounts with their exact passwords; every other combination —
unknown user or wrong password alike — produces the one same `Unauthorized`
error, so the response does not distinguish unknown users from bad passwords. -/
theorem c9_auth (username password : PyStr) :
    (verify_credentials username password = .ok username ↔
      ((username = "admin".data ∧ password = "admin123".data) ∨
        (username = "user".data ∧ password = "user123".data))) ∧
    (verify_credentials username password = .ok username ∨
      verify_credentials username password = .error .unauthorized) := by
  by_cases ha : username = "admin".data
  · subst ha
    have h1 : verify_credentials "admin".data password =
        if password = "admin123".data then .ok "admin".data
        else .error .unauthorized := rfl
    rw [h1]
    by_cases hp : password = "admin123".data
    · subst hp
      rw [if_pos rfl]
      exact ⟨⟨fun _ => Or.inl ⟨rfl, rfl⟩, fun _ => rfl⟩, Or.inl rfl⟩
    · rw [if_neg hp]
      refine ⟨⟨fun hc => absurd hc (by simp), ?_⟩, Or.inr rfl⟩
      rintro (⟨-, hpw⟩ | ⟨hus, -⟩)
      · exact absurd hpw hp
      · exact absurd hus (by decide)
  · by_cases hb : username = "user".data
    · subst hb
      have h1 : verify_credentials "user".data password =
          if password = "user123".data then .ok "user".data
          else .error .unauthorized := rfl
      rw [h1]
      by_cases hp : password = "user123".data
      · subst hp
        rw [if_pos rfl]
        exact ⟨⟨fun _ => Or.inr ⟨rfl, rfl⟩, fun _ => rfl⟩, Or.inl rfl⟩
      · rw [if_neg hp]
        refine ⟨⟨fun hc => absurd hc (by simp), ?_⟩, Or.inr rfl⟩
        rintro (⟨hus, -⟩ | ⟨-, hpw⟩)
        · exact absurd hus (by decide)
        · exact absurd hpw hp
    · have h1 : verify_credentials username password = .error .unauthorized := by
        unfold verify_credentials
        have e1 : (("admin".data : PyStr) == username) = false := by
          simp only [beq_eq_false_iff_ne, ne_eq]
          exact fun he => ha he.symm
        have e2 : (("user".data : PyStr) == username) = false := by
          simp only [beq_eq_false_iff_ne, ne_eq]
          exact fun he => hb he.symm
        rw [show USERS = [("admin".data, "admin123".data), ("user".data, "user123".data)]
          from rfl]
        simp only [List.find?, e1, e2]
      rw [h1]
      refine ⟨⟨fun hc => absurd hc (by simp), ?_⟩, Or.inr rfl⟩
      rintro (⟨hus, -⟩ | ⟨hus, -⟩)
      · exact absurd hus ha
      · exact absurd hus hb

/-- C10: with duplicate ids in the loaded collection (possible after external
edits of the store, since per-record validation does not check uniqueness),
`get`, `update` and `toggle` act on the first occurrence in load order only,
while `delete` filters out every occurrence of the id. -/
theorem c10_duplicate_ids (todos : List TodoItem) (tid : Int) (inp : TodoCreate)
    (u w : TodoItem)
    (hg : get_todo todos tid = .ok w)
    (hu : (update_todo todos tid inp).2 = .ok u) :
    (∃ i, todos[i]? = some w ∧ w.id = tid ∧
      ∀ (j : Nat) (t' : TodoItem), j < i → todos[j]? = some t' → t'.id ≠ tid) ∧
    (∃ i, ∃ told : TodoItem, todos[i]? = some told ∧ told.id = tid ∧
      (∀ (j : Nat) (t' : TodoItem), j < i → todos[j]? = some t' → t'.id ≠ tid) ∧
      (update_todo todos tid inp).1 = todos.set i u) ∧
    (∀ v, (toggle_todo_status todos tid).2 = .ok v →
      ∃ i, ∃ told : TodoItem, todos[i]? = some told ∧ told.id = tid ∧
        (∀ (j : Nat) (t' : TodoItem), j < i → todos[j]? = some t' → t'.id ≠ tid) ∧
        (toggle_todo_status todos tid).1 = todos.set i v) ∧
    ((delete_todo todos tid).1 = todos.filter fun t => t.id ≠ tid) ∧
    (∀ t ∈ (delete_todo todos tid).1, t.id ≠ tid) ∧
    (∀ t ∈ todos, t.id ≠ tid → t ∈ (delete_todo todos tid).1) := by
  refine ⟨get_ok_structure hg, ?_, ?_, delete_store todos tid, ?_, ?_⟩
  · obtain ⟨-, i, told, h1, h2, h3, h4⟩ := update_ok_structure hu
    exact ⟨i, told, h1, h2, h3, h4⟩
  · intro v hv
    obtain ⟨i, told, h1, h2, -, h3, h4⟩ := toggle_ok_structure hv
    exact ⟨i, told, h1, h2, h3, h4⟩
  · intro t ht
    rw [delete_store todos tid] at ht
    simpa using List.of_mem_filter ht
  · intro t ht hne
    rw [delete_store todos tid]
    exact List.mem_filter.mpr ⟨ht, decide_eq_true hne⟩

theorem c10_duplicate_ids_witness :
    (∃ i, [TodoItem.mk 1 ['a'] ['b'] false, TodoItem.mk 1 ['c'] ['d'] true][i]? =
        some (TodoItem.mk 1 ['a'] ['b'] false) ∧
      (TodoItem.mk 1 ['a'] ['b'] false).id = 1 ∧
      ∀ (j : Nat) (t' : TodoItem), j < i →
        [TodoItem.mk 1 ['a'] ['b'] false, TodoItem.mk 1 ['c'] ['d'] true][j]? = some t' →
        t'.id ≠ 1) ∧
    (∃ i, ∃ told : TodoItem,
      [TodoItem.mk 1 ['a'] ['b'] false, TodoItem.mk 1 ['c'] ['d'] true][i]? = some told ∧
      told.id = 1 ∧
      (∀ (j : Nat) (t' : TodoItem), j < i →
        [TodoItem.mk 1 ['a'] ['b'] false, TodoItem.mk 1 ['c'] ['d'] true][j]? = some t' →
        t'.id ≠ 1) ∧
      (update_todo [TodoItem.mk 1 ['a'] ['b'] false, TodoItem.mk 1 ['c'] ['d'] true] 1
        (TodoCreate.mk ['e'] ['f'] false)).1 =
        [TodoItem.mk 1 ['a'] ['b'] false, TodoItem.mk 1 ['c'] ['d'] true].set i
          (TodoItem.mk 1 ['e'] ['f'] false)) ∧
    (∀ v, (toggle_todo_status
        [TodoItem.mk 1 ['a'] ['b'] false, TodoItem.mk 1 ['c'] ['d'] true] 1).2 = .ok v →
      ∃ i, ∃ told : TodoItem,
        [TodoItem.mk 1 ['a'] ['b'] false, TodoItem.mk 1 ['c'] ['d'] true][i]? = some told ∧
        told.id = 1 ∧
        (∀ (j : Nat) (t' : TodoItem), j < i →
          [TodoItem.mk 1 ['a'] ['b'] false, TodoItem.mk 1 ['c'] ['d'] true][j]? = some t' →
          t'.id ≠ 1) ∧
        (toggle_todo_status
          [TodoItem.mk 1 ['a'] ['b'] false, TodoItem.mk 1 ['c'] ['d'] true] 1).1 =
          [TodoItem.mk 1 ['a'] ['b'] false, TodoItem.mk 1 ['c'] ['d'] true].set i v) ∧
    ((delete_todo [TodoItem.mk 1 ['a'] ['b'] false, TodoItem.mk 1 ['c'] ['d'] true] 1).1 =
      [TodoItem.mk 1 ['a'] ['b'] false, TodoItem.mk 1 ['c'] ['d'] true].filter
        fun t => t.id ≠ 1) ∧
    (∀ t ∈ (delete_todo
        [TodoItem.mk 1 ['a'] ['b'] false, TodoItem.mk 1 ['c'] ['d'] true] 1).1,
      t.id ≠ 1) ∧
    (∀ t ∈ [TodoItem.mk 1 ['a'] ['b'] false, TodoItem.mk 1 ['c'] ['d'] true],
      t.id ≠ 1 → t ∈ (delete_todo
        [TodoItem.mk 1 ['a'] ['b'] false, TodoItem.mk 1 ['c'] ['d'] true] 1).1) :=
  c10_duplicate_ids [TodoItem.mk 1 ['a'] ['b'] false, TodoItem.mk 1 ['c'] ['d'] true] 1
    (TodoCreate.mk ['e'] ['f'] false) (TodoItem.mk 1 ['e'] ['f'] false)
    (TodoItem.mk 1 ['a'] ['b'] false) (by rfl) (by rfl)
